import Mathlib

/-!
Verification development for the owperf measurement engine (src/owperf.js).

The JavaScript source is shallowly embedded below.  JavaScript `undefined`
values are modelled with `Option`; JS timestamps and durations are integers
(`ℤ`), counters are naturals (`ℕ`), and the divisions performed by the
aggregation stage are carried out in `ℚ`.  JS falsy checks (`if (!x)`) on
numbers treat both `undefined` and `0` as false; the embedding reproduces
that behaviour explicitly.  JS comparisons against `undefined` evaluate to
`false` (NaN semantics); the embedding reproduces that as well wherever the
source can actually receive an `undefined` value.
-/

namespace Owperf

/-- One invocation sample, mirroring the ad-hoc JS sample objects created by
`invokeActions` / `invokeRules` and enriched during post-processing.
Every field that the JS code may leave `undefined` is an `Option`. -/
structure Sample where
  bi : Option ℤ          -- beforeInvocation timestamp (absent on failed invocations)
  ai : Option ℤ          -- afterInvocation timestamp (blocking invocations only)
  ts : Option ℤ          -- trigger start timestamp (rule samples, set during expansion)
  taid : Option ℕ        -- trigger activation id
  taidError : Option ℕ   -- trigger invocation error
  aaid : Option ℕ        -- action activation id
  aaidError : Option ℕ   -- action invocation error
  deriving DecidableEq, Repr

/-- An activation record fetched from the platform: `activation.start`,
`activation.end` and `activation.response.result.duration`. -/
structure ActivationRecord where
  start : ℤ
  end_ : ℤ
  duration : ℤ
  deriving DecidableEq, Repr

/-- The measurement window `measurementTime = {start, stop}`. -/
structure Window where
  start : ℤ
  stop : ℤ
  deriving DecidableEq, Repr

/-- Throughput counters `tpCounters`. -/
structure TpCounters where
  attempts : ℕ
  invocations : ℕ
  activations : ℕ
  requests : ℕ
  errors : ℕ
  deriving DecidableEq, Repr

/-- One latency accumulator `latCounters[statName]`: all fields start
`undefined`. -/
structure LatAcc where
  sum : Option ℤ
  sumSqr : Option ℤ
  min : Option ℤ
  max : Option ℤ
  deriving DecidableEq, Repr

/-- The eight named latency accumulators of `latCounters`. -/
structure LatCounters where
  ta : LatAcc
  oea : LatAcc
  oer : LatAcc
  d : LatAcc
  ad : LatAcc
  ora : LatAcc
  rtt : LatAcc
  ortt : LatAcc
  deriving DecidableEq, Repr

/-- Per-process mutable post-processing state: `tpCounters` and
`latCounters`. -/
structure PState where
  tp : TpCounters
  lat : LatCounters
  deriving DecidableEq, Repr

def emptyLatAcc : LatAcc := ⟨none, none, none, none⟩

def emptyLatCounters : LatCounters :=
  ⟨emptyLatAcc, emptyLatAcc, emptyLatAcc, emptyLatAcc,
   emptyLatAcc, emptyLatAcc, emptyLatAcc, emptyLatAcc⟩

def emptyPState : PState := ⟨⟨0, 0, 0, 0, 0⟩, emptyLatCounters⟩

/-- `updateLatSample(statName, value)` (owperf.js lines 653-675).
`if (!value) return;` skips `undefined` (here `none`) and the number `0`.
`if (!sum) sum = 0` resets a falsy sum; since the falsy numeric value is
`0` itself, taking the stored value via `getD 0` is the identical result.
The JS guard `if (!min || min > value)` is kept verbatim, including the
(dead in practice) `min == 0` case. -/
def updateLatSample (acc : LatAcc) (value : Option ℤ) : LatAcc :=
  match value with
  | none => acc
  | some v =>
    if v = 0 then acc    -- JS: `!value` is true for 0
    else
      let sum0 : ℤ := acc.sum.getD 0
      let sumSqr0 : ℤ := acc.sumSqr.getD 0
      let mn : Option ℤ :=
        match acc.min with
        | none => some v
        | some m => if m = 0 ∨ m > v then some v else some m
      let mx : Option ℤ :=
        match acc.max with
        | none => some v
        | some m => if m = 0 ∨ m < v then some v else some m
      { sum := some (sum0 + v), sumSqr := some (sumSqr0 + v * v), min := mn, max := mx }

/-- The windowing test of `processSample` (owperf.js line 567):
`bi < measurementTime.start || bi > measurementTime.stop`.
If the sample carries no `bi` (failed invocations produce such samples),
both JS comparisons are `undefined < x` / `undefined > x`, i.e. `false`. -/
def biOutside (w : Window) (s : Sample) : Bool :=
  match s.bi with
  | some b => decide (b < w.start) || decide (b > w.stop)
  | none => false

/-- The `ts` local of `processSample` (lines 581-591): `if (sample.ts)` is a
falsy test, so a stored trigger start of `0` behaves like `undefined`. -/
def tsNorm (s : Sample) : Option ℤ :=
  match s.ts with
  | some t => if t = 0 then none else some t
  | none => none

/-- The `ai` local of `processSample` (lines 633-637): `(ai ? ... : undefined)`
is a falsy test on `sample.ai`. -/
def aiNorm (s : Sample) : Option ℤ :=
  match s.ai with
  | some a => if a = 0 then none else some a
  | none => none

/-- `processSample(sample, activation)` (owperf.js lines 563-648), the
classification step of the reconciler, as a pure state transformer.
Logging and the SQL side effect are omitted; the SQL call's argument
binding is modelled separately by `workersampleCall`. -/
def processSample (w : Window) (st : PState) (s : Sample)
    (activation : Option ActivationRecord) : PState :=
  if biOutside w s then st
  else
    -- each sample invoked in the time frame counts as one invocation attempt
    let st := { st with tp := { st.tp with attempts := st.tp.attempts + 1 } }
    if s.taidError.isSome then
      { st with tp := { st.tp with requests := st.tp.requests + 1,
                                   errors := st.tp.errors + 1 } }
    else
      -- trigger activation in time frame: count one activation, one request
      let st :=
        match tsNorm s with
        | some t =>
          if w.start ≤ t ∧ t ≤ w.stop then
            { st with tp := { st.tp with activations := st.tp.activations + 1,
                                         requests := st.tp.requests + 1 } }
          else st
        | none => st
      if s.aaidError.isSome then
        { st with tp := { st.tp with requests := st.tp.requests + 1,
                                     errors := st.tp.errors + 1 } }
      else
        match activation with
        | none => st    -- no activation retrieved: assumed incomplete
        | some act =>
          if act.start < w.start ∨ act.end_ > w.stop then st
          else
            let st := { st with tp := { st.tp with
                          activations := st.tp.activations + 1,
                          requests := st.tp.requests + 1,
                          invocations := st.tp.invocations + 1 } }
            let dv := act.duration
            let tav : Option ℤ := (tsNorm s).map (fun t => act.start - t)
            let adv : ℤ := act.end_ - act.start
            let oeav : Option ℤ := s.bi.map (fun b => act.start - b)
            let oerv : Option ℤ := s.bi.map (fun b => act.end_ - b - dv)
            let lat := st.lat
            let lat := { lat with d := updateLatSample lat.d (some dv) }
            let lat := { lat with ta := updateLatSample lat.ta tav }
            let lat := { lat with ad := updateLatSample lat.ad (some adv) }
            let lat := { lat with oea := updateLatSample lat.oea oeav }
            let lat := { lat with oer := updateLatSample lat.oer oerv }
            let aiv : Option ℤ := aiNorm s
            let orav : Option ℤ := aiv.map (fun a => a - act.end_)
            let rttv : Option ℤ :=
              match aiv, s.bi with
              | some a, some b => some (a - b)
              | _, _ => none    -- `ai - bi` is NaN when bi is undefined; NaN is later skipped
            let orttv : Option ℤ :=
              match rttv with
              | some r => if r = 0 then none else some (r - dv)
              | none => none
            let lat := { lat with ora := updateLatSample lat.ora orav }
            let lat := { lat with rtt := updateLatSample lat.rtt rttv }
            let lat := { lat with ortt := updateLatSample lat.ortt orttv }
            { st with lat := lat }

/-! ## Result aggregation (`computeLatStats`, `computeTpStats`) -/

/-- One per-process snapshot for a single latency statistic:
`workerData[i].lat[statName]` together with `workerData[i].tp.invocations`. -/
structure WorkerLat where
  acc : LatAcc
  invocations : ℕ
  deriving DecidableEq, Repr

/-- The result of `computeLatStats`.  The JS `std` is
`Math.sqrt(sumSqr/invocations - avg*avg)`; the embedding exposes the
radicand (`stdRad`), so `std = sqrt stdRad` and `std` is a real number
(not NaN) exactly when `stdRad ≥ 0`.  `avg`/`stdRad` are `none` exactly
when the JS values are `undefined`. -/
structure LatStats where
  avg : Option ℚ
  stdRad : Option ℚ
  min : Option ℤ
  max : Option ℤ
  deriving DecidableEq, Repr

/-- JS truthiness of a possibly-undefined number: `if (wd.lat[statName].sum)`. -/
def truthyOpt (o : Option ℤ) : Bool :=
  match o with
  | none => false
  | some x => decide (x ≠ 0)

/-- The running `min` update of the merge loop (line 724-725):
`if (!min || min > wd.lat[statName].min) min = wd.lat[statName].min`.
A comparison against an undefined candidate is `false` in JS. -/
def mergeMinJS (cur v : Option ℤ) : Option ℤ :=
  if (match cur with | none => true | some m => decide (m = 0)) then v
  else
    match v with
    | none => cur
    | some x => if cur.getD 0 > x then some x else cur

/-- The running `max` update of the merge loop (line 726-727). -/
def mergeMaxJS (cur v : Option ℤ) : Option ℤ :=
  if (match cur with | none => true | some m => decide (m = 0)) then v
  else
    match v with
    | none => cur
    | some x => if cur.getD 0 < x then some x else cur

/-- The local variables of `computeLatStats` while folding over
`workerData` in the regular (non-master-apart) mode. -/
structure MergeState where
  hasSamples : Bool
  totalSum : ℤ
  totalSumSqr : ℤ
  mn : Option ℤ
  mx : Option ℤ
  totalInv : ℕ
  deriving DecidableEq, Repr

def initMergeState : MergeState := ⟨false, 0, 0, none, none, 0⟩

/-- One `workerData.forEach` step of `computeLatStats` (lines 719-730).
`totalInvocations += wd.tp.invocations` runs for every process, while the
sums/min/max are folded only when the worker has a truthy `sum`. -/
def mergeStep (ms : MergeState) (wd : WorkerLat) : MergeState :=
  let ms1 :=
    if truthyOpt wd.acc.sum then
      { ms with hasSamples := true,
                totalSum := ms.totalSum + wd.acc.sum.getD 0,
                totalSumSqr := ms.totalSumSqr + wd.acc.sumSqr.getD 0,
                mn := mergeMinJS ms.mn wd.acc.min,
                mx := mergeMaxJS ms.mx wd.acc.max }
    else ms
  { ms1 with totalInv := ms1.totalInv + wd.invocations }

/-- `computeLatStats(statName)` (owperf.js lines 704-736) for one statistic.
`wd0` is `workerData[0]` (the coordinator), `rest` the remaining workers.
In master-apart mode the source copies the coordinator's accumulator into
the totals but never sets `hasSamples`, which is embedded verbatim
(`hasSamples := false` in that branch). -/
def computeLatStats (masterApart : Bool) (wd0 : WorkerLat) (rest : List WorkerLat) :
    LatStats :=
  if masterApart then
    let hasSamples := false    -- never assigned in this branch of the source
    let totalSum : ℤ := wd0.acc.sum.getD 0
    let totalSumSqr : ℤ := wd0.acc.sumSqr.getD 0
    let totalInv : ℕ := wd0.invocations
    { avg := if hasSamples then some ((totalSum : ℚ) / (totalInv : ℚ)) else none,
      stdRad := if hasSamples then
          some ((totalSumSqr : ℚ) / (totalInv : ℚ)
                - ((totalSum : ℚ) / (totalInv : ℚ)) ^ 2)
        else none,
      min := wd0.acc.min, max := wd0.acc.max }
  else
    let r := (wd0 :: rest).foldl mergeStep initMergeState
    { avg := if r.hasSamples then some ((r.totalSum : ℚ) / (r.totalInv : ℚ)) else none,
      stdRad := if r.hasSamples then
          some ((r.totalSumSqr : ℚ) / (r.totalInv : ℚ)
                - ((r.totalSum : ℚ) / (r.totalInv : ℚ)) ^ 2)
        else none,
      min := r.mn, max := r.mx }

/-- The result of `computeTpStats`. -/
structure TpStats where
  abs : ℕ
  tp : ℚ
  tpw : ℚ
  tpd : ℚ
  deriving DecidableEq, Repr

/-- `computeTpStats(statName)` (owperf.js lines 743-752) for one counter.
`wd0` is the coordinator's count, `rest` the workers' counts,
`measureTime` is `testRecord.output.measure_time` in seconds. -/
def computeTpStats (measureTime : ℚ) (wd0 : ℕ) (rest : List ℕ) : TpStats :=
  let masterCount := wd0
  let totalCount : ℕ := (wd0 :: rest).foldl (· + ·) 0
  let tp : ℚ := (totalCount : ℚ) / measureTime
  let tpw : ℚ := ((totalCount : ℚ) - (masterCount : ℚ)) / measureTime
  let tpd : ℚ := (tp - tpw) * 100 / tp
  { abs := totalCount, tp := tp, tpw := tpw, tpd := tpd }

/-! ## Rule expansion (`getActionSamplesOfRules`, `processSampleWithAction`) -/

/-- One parsed bound-action log entry of a trigger activation:
`{success, activationId}` or `{success: false, error}`. -/
structure BoundActionRecord where
  success : Bool
  activationId : ℕ
  error : ℕ
  deriving DecidableEq, Repr

/-- A trigger activation record: its start timestamp and its ordered
bound-action outcome log. -/
structure TriggerActivation where
  start : ℤ
  logs : List BoundActionRecord
  deriving DecidableEq, Repr

/-- `getActionSamplesOfRules` (owperf.js lines 512-534), given the already
fetched trigger activation.  The source first mutates the trigger sample
(`triggerSample.ts = triggerActivation.start`) and then copies it once per
log entry, setting either `aaid` or `aaidError` on the copy. -/
def getActionSamplesOfRules (trig : Sample) (act : TriggerActivation) : List Sample :=
  act.logs.map (fun rec =>
    let base := { trig with ts := some act.start }
    if rec.success then { base with aaid := some rec.activationId }
    else { base with aaidError := some rec.error })

/-- `processSampleWithAction` (owperf.js lines 543-556): an error sample is
classified directly; otherwise the action activation is fetched (`fetch`
models `ow.activations.get`, returning `none` on a failed fetch) and the
sample is classified with it. -/
def processSampleWithAction (fetch : ℕ → Option ActivationRecord) (w : Window)
    (st : PState) (s : Sample) : PState :=
  if s.aaidError.isSome then processSample w st s none
  else
    let activation :=
      match s.aaid with
      | some id => fetch id
      | none => none
    processSample w st s activation

/-- The rule branch of `postProcess` (owperf.js lines 497-501) for a sample
with a valid trigger activation id whose trigger activation resolved to
`act`: expand into derived action samples and classify each one in order. -/
def processResolvedRuleSample (fetch : ℕ → Option ActivationRecord) (w : Window)
    (st : PState) (s : Sample) (act : TriggerActivation) : PState :=
  (getActionSamplesOfRules s act).foldl (processSampleWithAction fetch w) st

/-! ## The invocation loop (`mainLoop`, `checkInit`, `invokeActions`) -/

/-- Outcome of one action invocation against the platform: either an
activation id (with the timestamps the loop would observe) or an error. -/
inductive InvOutcome where
  | ok (id : ℕ) (bi : ℤ) (ai : ℤ)
  | err (e : ℕ)
  deriving DecidableEq, Repr

/-- The sample built by one promise of `invokeActions` (owperf.js lines
434-448): on success `{aaid, bi, ai}` with `ai` recorded only when
blocking; on error just `{aaidError}` (no `bi`!). -/
def mkActionSample (doBlocking : Bool) (o : InvOutcome) : Sample :=
  match o with
  | .ok id bi ai =>
    { bi := some bi, ai := if doBlocking then some ai else none,
      ts := none, taid := none, taidError := none,
      aaid := some id, aaidError := none }
  | .err e =>
    { bi := none, ai := none, ts := none, taid := none, taidError := none,
      aaid := none, aaidError := some e }

/-- `invokeActions(count, ...)` (owperf.js lines 430-458): `count` concurrent
invocations, each resolving to one sample.  `orc` supplies the platform's
responses; `base` is the number of samples already collected, so the
responses consumed by this burst are `orc base, orc (base+1), ...`. -/
def invokeActionsList (doBlocking : Bool) (orc : ℕ → InvOutcome) (count base : ℕ) :
    List Sample :=
  (List.range count).map (fun j => mkActionSample doBlocking (orc (base + j)))

/-- Static loop configuration relevant to `mainLoop` in action mode:
burst width (`input.ratio`), blocking mode, and the optional iteration cap
(`input.iterations`). -/
structure LoopCfg where
  doBlocking : Bool
  burst : ℕ
  iterations : Option ℕ
  deriving DecidableEq, Repr

/-- The per-process mutable loop state: `warmupCounter`,
`remainingInits`, `remainingIterations`, `abort` and `sampleData`. -/
structure LoopState where
  warmupCounter : ℤ
  remainingInits : ℤ
  remainingIterations : ℤ
  abort : Bool
  samples : List Sample
  deriving Repr

/-- `checkInit` (owperf.js lines 311-323) as run at the coordinator: when
the countdown reaches zero the measurement clock starts and, if an
iteration cap is configured, the iteration countdown is activated.
(The wall-clock timestamp stamping and the optional period timer are
outside this model; with an iteration cap configured the period is unset.) -/
def checkInit (cfg : LoopCfg) (st : LoopState) : LoopState :=
  let st := { st with remainingInits := st.remainingInits - 1 }
  if st.remainingInits = 0 then
    { st with remainingIterations :=
        match cfg.iterations with
        | some n => (n : ℤ)
        | none => st.remainingIterations }
  else st

/-- One iteration of `mainLoop` (owperf.js lines 368-412) in action mode at
the coordinator: warmup/init bookkeeping, iteration-cap bookkeeping, then
the invocation burst whose samples are appended to `sampleData`.  The
pacing sleep has no effect on the collected state and is omitted. -/
def loopIter (cfg : LoopCfg) (orc : ℕ → InvOutcome) (st : LoopState) : LoopState :=
  let st := if st.warmupCounter = 0 then checkInit cfg st else st
  let st :=
    if 0 ≤ st.warmupCounter then { st with warmupCounter := st.warmupCounter - 1 }
    else st
  if st.remainingIterations = 0 then { st with abort := true }
  else
    let st :=
      if 0 < st.remainingIterations then
        { st with remainingIterations := st.remainingIterations - 1 }
      else st
    { st with samples :=
        st.samples ++ invokeActionsList cfg.doBlocking orc cfg.burst st.samples.length }

/-- `while (!abort)`: run the loop, with enough fuel to reach the abort. -/
def loopRun (cfg : LoopCfg) (orc : ℕ → InvOutcome) : ℕ → LoopState → LoopState
  | 0, st => st
  | fuel + 1, st => if st.abort then st else loopRun cfg orc fuel (loopIter cfg orc st)

/-- The initial loop state of a single-process run (`workers = 1`):
`warmupCounter = warmup`, `remainingInits = workers = 1`,
`remainingIterations = -1`, no abort, empty sample buffer. -/
def initLoopState (warmup : ℕ) : LoopState :=
  { warmupCounter := (warmup : ℤ), remainingInits := 1,
    remainingIterations := -1, abort := false, samples := [] }

/-! ## Persistence retry (`sql_insert_workersample`) -/

/-- The positional binding performed by the call in `processSample`
(owperf.js line 646).  The callee's parameter list (line 1196) is
`(db, expId, trycnt, bi, as, ae, ts, ta, oea, oer, d, ad, ai, ora, rtt, ortt)`
but the call passes only
`(db, expId, bi, as, ae, ts, ta, oea, oer, d, ad, ai, ora, rtt, ortt)`,
so every value lands one parameter early: `trycnt` receives `bi` and the
final parameter `ortt` receives `undefined`. -/
structure InsertCall where
  trycnt : Option ℤ
  bi : Option ℤ
  asv : Option ℤ
  ae : Option ℤ
  ts : Option ℤ
  ta : Option ℤ
  oea : Option ℤ
  oer : Option ℤ
  d : Option ℤ
  ad : Option ℤ
  ai : Option ℤ
  ora : Option ℤ
  rtt : Option ℤ
  ortt : Option ℤ
  deriving DecidableEq, Repr

/-- The argument vector of the call site (line 646) bound to the parameter
list of `sql_insert_workersample` (line 1196), in positional order. -/
def workersampleCall (bi asv ae : ℤ) (ts ta : Option ℤ) (oea oer d ad : ℤ)
    (ai ora rtt ortt : Option ℤ) : InsertCall :=
  { trycnt := some bi, bi := some asv, asv := some ae, ae := ts, ts := ta,
    ta := some oea, oea := some oer, oer := some d, d := some ad, ad := ai,
    ai := ora, ora := rtt, rtt := ortt, ortt := none }

/-- Total number of `db.run` attempts performed by
`sql_insert_workersample` (owperf.js lines 1196-1212) when every insert
fails, as a function of the initial `trycnt`: one attempt, then a retry
with `trycnt + 1` as long as `trycnt < 50`.  Exhaustion only logs a
warning, so the recursion is total and never fatal. -/
def insertAttemptsWhenFailing (trycnt : ℤ) : ℕ :=
  if h : trycnt < 50 then 1 + insertAttemptsWhenFailing (trycnt + 1) else 1
termination_by (50 - trycnt).toNat
decreasing_by omega

/-! ## Derived notions used by the theorems -/

/-- The provisional trigger-leg increment of `processSample` (lines 582-589):
`1` exactly when the sample records a truthy trigger start that lies inside
the window, `0` otherwise.  In that case `activations` and `requests` each
receive one increment in addition to the final full-invocation increment. -/
def trigBonus (w : Window) (s : Sample) : ℕ :=
  match tsNorm s with
  | some t => if w.start ≤ t ∧ t ≤ w.stop then 1 else 0
  | none => 0

/-- The latency-accumulator update performed by the full-invocation leg of
`processSample` (lines 619-641), spelled out with the metric values of the
specification: `d` = self-reported duration, `ta` = start − triggerStart,
`ad` = end − start, `oea` = start − beforeInvocation,
`oer` = end − beforeInvocation − d, and for blocking invocations
`ora` = afterInvocation − end, `rtt` = afterInvocation − beforeInvocation,
`ortt` = rtt − d. -/
def expectedLatUpdate (s : Sample) (a : ActivationRecord) (lat : LatCounters) :
    LatCounters :=
  let dv := a.duration
  let tav := (tsNorm s).map (fun t => a.start - t)
  let adv := a.end_ - a.start
  let oeav := s.bi.map (fun b => a.start - b)
  let oerv := s.bi.map (fun b => a.end_ - b - dv)
  let lat := { lat with d := updateLatSample lat.d (some dv) }
  let lat := { lat with ta := updateLatSample lat.ta tav }
  let lat := { lat with ad := updateLatSample lat.ad (some adv) }
  let lat := { lat with oea := updateLatSample lat.oea oeav }
  let lat := { lat with oer := updateLatSample lat.oer oerv }
  let aiv := aiNorm s
  let orav := aiv.map (fun x => x - a.end_)
  let rttv : Option ℤ :=
    match aiv, s.bi with
    | some x, some b => some (x - b)
    | _, _ => none
  let orttv : Option ℤ :=
    match rttv with
    | some r => if r = 0 then none else some (r - dv)
    | none => none
  let lat := { lat with ora := updateLatSample lat.ora orav }
  let lat := { lat with rtt := updateLatSample lat.rtt rttv }
  { lat with ortt := updateLatSample lat.ortt orttv }

/-- A sample of activity `action`: no trigger fields, and exactly the
action outcome (id or error) recorded by `invokeActions`. -/
def isActionSample (s : Sample) : Prop :=
  s.taid = none ∧ s.taidError = none ∧ s.ts = none ∧
  (s.aaid.isSome ∨ s.aaidError.isSome)

/-- The accumulator obtained by folding a list of metric values through
`updateLatSample`, starting from the empty accumulator. -/
def accFromList (l : List ℤ) : LatAcc :=
  l.foldl (fun a v => updateLatSample a (some v)) emptyLatAcc

/-- Sum of squares of a value list. -/
def sumSq (l : List ℤ) : ℤ := (l.map (fun v => v * v)).sum

/-- `acc` holds exactly the running statistics of the value list `vs`. -/
def AccRepr (acc : LatAcc) (vs : List ℤ) : Prop :=
  acc.sum = (if vs = [] then none else some vs.sum) ∧
  acc.sumSqr = (if vs = [] then none else some (sumSq vs)) ∧
  (vs = [] → acc.min = none ∧ acc.max = none) ∧
  (vs ≠ [] → (∃ m, acc.min = some m ∧ m ∈ vs ∧ ∀ v ∈ vs, m ≤ v)
           ∧ (∃ M, acc.max = some M ∧ M ∈ vs ∧ ∀ v ∈ vs, v ≤ M))

/-- The merge state of `computeLatStats` holds exactly the statistics of the
combined value list `C` and the summed invocation count `I`. -/
def GoodMS (ms : MergeState) (C : List ℤ) (I : ℕ) : Prop :=
  ms.totalSum = C.sum ∧ ms.totalSumSqr = sumSq C ∧ ms.totalInv = I ∧
  (ms.hasSamples = true ↔ C ≠ []) ∧
  (C = [] → ms.mn = none ∧ ms.mx = none) ∧
  (C ≠ [] → (∃ m, ms.mn = some m ∧ m ∈ C ∧ ∀ v ∈ C, m ≤ v)
          ∧ (∃ M, ms.mx = some M ∧ M ∈ C ∧ ∀ v ∈ C, v ≤ M))

/-- Build one per-process snapshot from its contributed value list and its
invocation count. -/
def mkWorkerLat (p : List ℤ × ℕ) : WorkerLat := ⟨accFromList p.1, p.2⟩

/-! ## Concrete test inputs -/

/-- Window used by the C1 instances. -/
def c1Window : Window := ⟨100, 200⟩

/-- A failed invocation's sample: `invokeRules`/`invokeActions` resolve a
rejected invocation to an error-only object, with no `bi` field
(owperf.js lines 445-447 and 474-477). -/
def c1NoBiSample : Sample := ⟨none, none, none, none, some 3, none, none⟩

/-- An admitted sample whose `bi` sits exactly on the window start. -/
def c1InSample : Sample := ⟨some 100, none, none, none, some 7, none, none⟩

/-- A sample whose `bi` is one past the window stop. -/
def c1OutSample : Sample := ⟨some 201, none, none, none, some 7, none, none⟩

def c2Window : Window := ⟨1000, 2000⟩

/-- A rule-derived sample with an in-window trigger start. -/
def c2Sample : Sample := ⟨some 1100, none, some 1150, some 1, none, some 2, none⟩

def c2Act : ActivationRecord := ⟨1200, 1300, 50⟩

/-- A blocking action sample (no trigger fields, `ai` recorded). -/
def c2BlockSample : Sample := ⟨some 1100, some 1400, none, none, none, some 2, none⟩

def oerWindow : Window := ⟨0, 10000⟩

/-- An admitted full invocation whose `oer` value is `200 - 100 - 30 = 70`. -/
def oerSample70 : Sample := ⟨some 100, none, none, none, none, some 7, none⟩

def oerAct70 : ActivationRecord := ⟨150, 200, 30⟩

/-- An admitted full invocation whose `oer` value is `180 - 100 - 80 = 0`. -/
def oerSample0 : Sample := ⟨some 100, none, none, none, none, some 8, none⟩

def oerAct0 : ActivationRecord := ⟨150, 180, 80⟩

/-- The post-processing state after both `oer` invocations were admitted. -/
def oerState : PState :=
  processSample oerWindow
    (processSample oerWindow emptyPState oerSample70 (some oerAct70))
    oerSample0 (some oerAct0)

/-- The trigger sample of the rule-expansion scenario. -/
def c5TrigSample : Sample := ⟨some 1100, none, none, some 9, none, none, none⟩

/-- Its resolved trigger activation: three bound actions, two succeeding
and one failing. -/
def c5TrigAct : TriggerActivation :=
  ⟨1150, [⟨true, 21, 0⟩, ⟨true, 22, 0⟩, ⟨false, 0, 5⟩]⟩

/-- Activation fetch for the two succeeding bound actions. -/
def c5Fetch : ℕ → Option ActivationRecord :=
  fun id =>
    if id = 21 then some ⟨1200, 1300, 50⟩
    else if id = 22 then some ⟨1210, 1310, 60⟩
    else none

def c5Window : Window := ⟨1000, 2000⟩

/-- The loop configuration of the C8 scenario:
`ratio=1, activity=action, blocking=none, iterations=10`. -/
def cfgC8 : LoopCfg := ⟨false, 1, some 10⟩

/-- A concrete platform-response oracle for the C8 counterexample. -/
def c8Oracle : ℕ → InvOutcome := fun n => .ok n (1000 + (n : ℤ)) 0

/-! ## Theorems -/

/-- Folding worker snapshots whose accumulators are all empty never sets
`hasSamples`. -/
theorem foldl_mergeStep_hasSamples_of_empty (l : List WorkerLat) :
    ∀ ms : MergeState, (∀ p ∈ l, p.acc = emptyLatAcc) →
      (l.foldl mergeStep ms).hasSamples = ms.hasSamples := by
  induction l with
  | nil => intro ms _; rfl
  | cons p t ih =>
    intro ms h
    have hp : p.acc = emptyLatAcc := h p (by simp)
    have hstep : mergeStep ms p = { ms with totalInv := ms.totalInv + p.invocations } := by
      simp [mergeStep, hp, emptyLatAcc, truthyOpt]
    rw [List.foldl_cons, hstep]
    exact ih _ (fun q hq => h q (by simp [hq]))

/-- C3: The claim says that in master-apart mode `computeLatStats` returns
`avg = coordinator sum / coordinator invocations` and the matching standard
deviation.  The source never sets `hasSamples` in the master-apart branch
(owperf.js lines 708-717), so `avg` and `std` are unconditionally
`undefined` there, for every possible worker snapshot — the code
contradicts the clear intent of the branch, which copies the coordinator's
sums only to discard them. -/
theorem computeLatStats_master_apart_undefined (wd0 : WorkerLat) (rest : List WorkerLat) :
    (computeLatStats true wd0 rest).avg = none
    ∧ (computeLatStats true wd0 rest).stdRad = none := by
  constructor <;> simp [computeLatStats]

/-- C6: if no process contributed a sample to a metric (every per-process
accumulator is empty), the aggregated `avg` and `std` are `undefined`
(`none`, distinct from the number zero); and an `undefined` metric value is
never folded into an accumulator: `updateLatSample` leaves every field
unchanged. -/
theorem computeLatStats_no_samples_undefined (ma : Bool) (wd0 : WorkerLat)
    (rest : List WorkerLat) (h0 : wd0.acc = emptyLatAcc)
    (hr : ∀ p ∈ rest, p.acc = emptyLatAcc) :
    (computeLatStats ma wd0 rest).avg = none
    ∧ (computeLatStats ma wd0 rest).stdRad = none
    ∧ ∀ acc : LatAcc, updateLatSample acc none = acc := by
  have hall : ∀ p ∈ wd0 :: rest, p.acc = emptyLatAcc := by
    intro p hp
    rcases List.mem_cons.1 hp with h | h
    · rw [h]; exact h0
    · exact hr p h
  cases ma
  · have hh : ((wd0 :: rest).foldl mergeStep initMergeState).hasSamples = false := by
      rw [foldl_mergeStep_hasSamples_of_empty _ _ hall]; rfl
    rw [List.foldl_cons] at hh
    exact ⟨by simp [computeLatStats, hh], by simp [computeLatStats, hh], fun acc => rfl⟩
  · exact ⟨by simp [computeLatStats], by simp [computeLatStats], fun acc => rfl⟩

/-- Witness for C6 at a concrete input: one process with five invocations
but an empty accumulator for the metric. -/
theorem computeLatStats_no_samples_undefined_witness :
    (computeLatStats false ⟨emptyLatAcc, 5⟩ []).avg = none
    ∧ (computeLatStats false ⟨emptyLatAcc, 5⟩ []).stdRad = none
    ∧ updateLatSample emptyLatAcc none = emptyLatAcc := by
  have h := computeLatStats_no_samples_undefined false ⟨emptyLatAcc, 5⟩ [] rfl
    (by intro p hp; simp at hp)
  exact ⟨h.1, h.2.1, h.2.2 emptyLatAcc⟩

/-- C7: whenever the coordinator's count is at most the total count and the
measured duration is positive, the throughputs satisfy `0 ≤ tpw ≤ tp`, and
`tpd` is exactly `(tp - tpw) * 100 / tp`.  (Per-process counts are naturals
in the embedding, as in the source, where counters only ever increment.) -/
theorem computeTpStats_invariant (measureTime : ℚ) (wd0 : ℕ) (rest : List ℕ)
    (hmc : wd0 ≤ (wd0 :: rest).foldl (· + ·) 0) (hT : 0 < measureTime) :
    (computeTpStats measureTime wd0 rest).tpw ≤ (computeTpStats measureTime wd0 rest).tp
    ∧ 0 ≤ (computeTpStats measureTime wd0 rest).tpw
    ∧ (computeTpStats measureTime wd0 rest).tpd
      = ((computeTpStats measureTime wd0 rest).tp
          - (computeTpStats measureTime wd0 rest).tpw) * 100
        / (computeTpStats measureTime wd0 rest).tp := by
  have hc : (0 : ℚ) ≤ (wd0 : ℚ) := by positivity
  have hle : (wd0 : ℚ) ≤ (((wd0 :: rest).foldl (· + ·) 0 : ℕ) : ℚ) := by
    exact_mod_cast hmc
  refine ⟨?_, ?_, rfl⟩
  · simp only [computeTpStats]
    apply (div_le_div_iff_of_pos_right hT).mpr
    linarith
  · simp only [computeTpStats]
    apply div_nonneg _ hT.le
    linarith

/-- Witness for C7: coordinator count 3, one worker count 5, duration 2s. -/
theorem computeTpStats_invariant_witness :
    (computeTpStats 2 3 [5]).tpw ≤ (computeTpStats 2 3 [5]).tp
    ∧ 0 ≤ (computeTpStats 2 3 [5]).tpw
    ∧ (computeTpStats 2 3 [5]).tpd
      = ((computeTpStats 2 3 [5]).tp - (computeTpStats 2 3 [5]).tpw) * 100
        / (computeTpStats 2 3 [5]).tp :=
  computeTpStats_invariant 2 3 [5] (by decide) (by norm_num)

/-- Counting down the retry budget: starting `50 - n` tries in, a failing
row is attempted `n + 1` times in total. -/
theorem insertAttempts_from : ∀ n : ℕ, n ≤ 50 →
    insertAttemptsWhenFailing (50 - (n : ℤ)) = n + 1 := by
  intro n
  induction n with
  | zero => intro _; rw [insertAttemptsWhenFailing]; norm_num
  | succ k ih =>
    intro hk
    rw [insertAttemptsWhenFailing]
    have h1 : (50 : ℤ) - ((k + 1 : ℕ) : ℤ) < 50 := by push_cast; omega
    rw [dif_pos h1]
    have h2 : (50 : ℤ) - ((k + 1 : ℕ) : ℤ) + 1 = 50 - (k : ℤ) := by push_cast; ring
    rw [h2, ih (by omega)]
    omega

/-- C9: the claim says a failing per-sample insert is retried up to 50
times.  The recursion of `sql_insert_workersample` does bound retries by
the `trycnt < 50` test (so a call starting at `trycnt = 0` performs
51 attempts in total), but the call site in `processSample` (line 646)
omits the `trycnt` argument, so `trycnt` is bound to the sample's `bi`
timestamp (here `1000000`): the very first failure already fails the
`trycnt < 50` test and the row is dropped after a single attempt, with all
column values shifted one position (`ortt` becomes `undefined`). -/
theorem sql_insert_retry_trycnt :
    (workersampleCall 1000000 1200 1300 (some 1150) (some 50) 100 150 50 100
        none none none none).trycnt = some 1000000
    ∧ (workersampleCall 1000000 1200 1300 (some 1150) (some 50) 100 150 50 100
        none none none none).ortt = none
    ∧ insertAttemptsWhenFailing 1000000 = 1
    ∧ insertAttemptsWhenFailing 0 = 51 := by
  refine ⟨rfl, rfl, ?_, ?_⟩
  · rw [insertAttemptsWhenFailing]; norm_num
  · have h := insertAttempts_from 50 (by omega)
    norm_num at h
    exact h

/-- C10: a metric value equal to `0` is skipped by `updateLatSample`
exactly like an `undefined` value (the JS guard `if (!value)` is a falsy
test): no field of the accumulator changes.  Concretely, the admitted full
invocation `oerSample0`/`oerAct0` has `oer = 180 - 100 - 80 = 0`; it
increments `invocations` yet leaves the `oer` accumulator empty. -/
theorem updateLatSample_zero_skipped :
    (∀ acc : LatAcc, updateLatSample acc (some 0) = acc
        ∧ updateLatSample acc none = acc)
    ∧ (processSample oerWindow emptyPState oerSample0 (some oerAct0)).tp.invocations = 1
    ∧ (processSample oerWindow emptyPState oerSample0 (some oerAct0)).lat.oer
        = emptyLatAcc := by
  exact ⟨fun acc => ⟨by simp [updateLatSample], rfl⟩, by decide, by decide⟩

/-- A sample whose windowing test fires is returned unchanged: no counter
and no latency statistic is touched. -/
theorem processSample_of_outside (w : Window) (st : PState) (s : Sample)
    (act : Option ActivationRecord) (hout : biOutside w s = true) :
    processSample w st s act = st := by
  unfold processSample
  simp [hout]

/-- A sample that passes the windowing test always increments `attempts`
by one, in every later branch of the classification. -/
theorem processSample_of_inside (w : Window) (st : PState) (s : Sample)
    (act : Option ActivationRecord) (hout : biOutside w s = false) :
    (processSample w st s act).tp.attempts = st.tp.attempts + 1 := by
  unfold processSample
  simp only [hout, Bool.false_eq_true, if_false]
  repeat' split
  all_goals simp

/-- C1 (amended): a sample that carries a `beforeInvocation` timestamp is
admitted by `processSample` if and only if
`TimeWindow.start ≤ beforeInvocation ≤ TimeWindow.stop`, both boundary
equalities admitted; when it falls outside, the state is returned unchanged
(no field of `tpCounters` or `latCounters` changes).  A sample carrying no
`beforeInvocation` (the error-only objects produced by a failed invocation)
is, however, always admitted, because both JS comparisons
`undefined < start` and `undefined > stop` are false. -/
theorem processSample_window_admission (w : Window) (st : PState) (s : Sample)
    (act : Option ActivationRecord) :
    (∀ b : ℤ, s.bi = some b → (b < w.start ∨ w.stop < b) →
        processSample w st s act = st)
    ∧ (∀ b : ℤ, s.bi = some b → w.start ≤ b → b ≤ w.stop →
        (processSample w st s act).tp.attempts = st.tp.attempts + 1)
    ∧ (s.bi = none → (processSample w st s act).tp.attempts = st.tp.attempts + 1) := by
  refine ⟨?_, ?_, ?_⟩
  · intro b hb h
    apply processSample_of_outside
    simp [biOutside, hb]
    omega
  · intro b hb h1 h2
    apply processSample_of_inside
    simp [biOutside, hb]
    omega
  · intro hb
    apply processSample_of_inside
    simp [biOutside, hb]

/-- Witness for C1 at concrete inputs: `bi = 201` just outside
`[100, 200]` leaves the state untouched; `bi = 100` exactly on the start
boundary is admitted. -/
theorem processSample_window_admission_witness :
    processSample c1Window emptyPState c1OutSample none = emptyPState
    ∧ (processSample c1Window emptyPState c1InSample none).tp.attempts
        = emptyPState.tp.attempts + 1
    ∧ (processSample c1Window emptyPState c1NoBiSample none).tp.attempts
        = emptyPState.tp.attempts + 1 :=
  ⟨(processSample_window_admission c1Window emptyPState c1OutSample none).1
      201 rfl (by decide),
   (processSample_window_admission c1Window emptyPState c1InSample none).2.1
      100 rfl (by decide) (by decide),
   (processSample_window_admission c1Window emptyPState c1NoBiSample none).2.2
      rfl⟩

/-- C1 counterexample: the claim (admission iff
`start ≤ beforeInvocation ≤ stop`) fails for a sample with no
`beforeInvocation`.  `c1NoBiSample` is the error object a failed trigger
invocation produces; no timestamp of it lies inside `[100, 200]`, yet
`processSample` admits it and counts an attempt (plus a request and an
error). -/
theorem processSample_missing_bi_admitted :
    c1NoBiSample.bi = none
    ∧ processSample c1Window emptyPState c1NoBiSample none ≠ emptyPState
    ∧ (processSample c1Window emptyPState c1NoBiSample none).tp.attempts = 1 := by
  exact ⟨rfl, by decide, by decide⟩

/-- C5: expanding a rule sample whose trigger activation has `n` bound
action log entries yields exactly `n` derived samples; each inherits the
original `beforeInvocation` and the trigger's start timestamp, and carries
the entry's action activation id on success, otherwise the entry's error;
the derived samples are then classified independently, in log order (the
fold of `processSampleWithAction`).  Concretely, the spec scenario with
three bound actions (two succeeding, one failing, both successes resolving
inside the window) yields 3 derived samples, 1 error and 2 invocations. -/
theorem getActionSamplesOfRules_expansion (s : Sample) (act : TriggerActivation)
    (fetch : ℕ → Option ActivationRecord) (w : Window) (st : PState) :
    (getActionSamplesOfRules s act).length = act.logs.length
    ∧ (∀ i : ℕ, ((getActionSamplesOfRules s act)[i]?).map Sample.bi
        = (act.logs[i]?).map (fun _ => s.bi))
    ∧ (∀ i : ℕ, ((getActionSamplesOfRules s act)[i]?).map Sample.ts
        = (act.logs[i]?).map (fun _ => some act.start))
    ∧ (∀ i : ℕ, ((getActionSamplesOfRules s act)[i]?).map (fun ds => (ds.aaid, ds.aaidError))
        = (act.logs[i]?).map (fun r =>
            if r.success then (some r.activationId, s.aaidError)
            else (s.aaid, some r.error)))
    ∧ processResolvedRuleSample fetch w st s act
        = (getActionSamplesOfRules s act).foldl (processSampleWithAction fetch w) st
    ∧ (getActionSamplesOfRules c5TrigSample c5TrigAct).length = 3
    ∧ (processResolvedRuleSample c5Fetch c5Window emptyPState c5TrigSample c5TrigAct).tp.errors = 1
    ∧ (processResolvedRuleSample c5Fetch c5Window emptyPState c5TrigSample c5TrigAct).tp.invocations = 2 := by
  refine ⟨by simp [getActionSamplesOfRules], ?_, ?_, ?_, rfl, by decide, by decide, by decide⟩
  · intro i
    simp only [getActionSamplesOfRules, List.getElem?_map]
    cases h : act.logs[i]? with
    | none => simp
    | some r => cases hr : r.success <;> simp [hr]
  · intro i
    simp only [getActionSamplesOfRules, List.getElem?_map]
    cases h : act.logs[i]? with
    | none => simp
    | some r => cases hr : r.success <;> simp [hr]
  · intro i
    simp only [getActionSamplesOfRules, List.getElem?_map]
    cases h : act.logs[i]? with
    | none => simp
    | some r => cases hr : r.success <;> simp [hr]

/-- C2 (amended): for an in-window sample with no trigger error, no action
error, a resolved activation, and activation start and end both inside the
window, `processSample` increments `attempts` and `invocations` by one,
leaves `errors` unchanged, increments `activations` and `requests` by one
plus the provisional trigger-leg increment (`trigBonus`: one more each when
a truthy trigger start lies inside the window — the dual accounting of the
source), and updates exactly the latency metrics of the claim via
`expectedLatUpdate`: `d`, `ad = end - start`, `oea = start - bi`,
`oer = end - bi - d`, `ta = start - triggerStart` when a trigger start was
recorded, and `ora`, `rtt`, `ortt` when `afterInvocation` was recorded. -/
theorem processSample_full_invocation (w : Window) (st : PState) (s : Sample)
    (a : ActivationRecord) (b : ℤ)
    (hb : s.bi = some b) (hb1 : w.start ≤ b) (hb2 : b ≤ w.stop)
    (hte : s.taidError = none) (hae : s.aaidError = none)
    (has1 : w.start ≤ a.start) (has2 : a.start ≤ w.stop)
    (hend1 : w.start ≤ a.end_) (hend2 : a.end_ ≤ w.stop) :
    (processSample w st s (some a)).tp.attempts = st.tp.attempts + 1
    ∧ (processSample w st s (some a)).tp.invocations = st.tp.invocations + 1
    ∧ (processSample w st s (some a)).tp.errors = st.tp.errors
    ∧ (processSample w st s (some a)).tp.activations
        = st.tp.activations + 1 + trigBonus w s
    ∧ (processSample w st s (some a)).tp.requests
        = st.tp.requests + 1 + trigBonus w s
    ∧ (processSample w st s (some a)).lat = expectedLatUpdate s a st.lat := by
  have hout : biOutside w s = false := by
    simp [biOutside, hb]
    omega
  have hwin : ¬ (a.start < w.start ∨ a.end_ > w.stop) := by omega
  unfold processSample
  simp only [hout, Bool.false_eq_true, if_false, hte, hae, Option.isSome_none]
  cases hts : tsNorm s with
  | none =>
    simp [hts, hwin, trigBonus, expectedLatUpdate]
  | some t =>
    by_cases hw : w.start ≤ t ∧ t ≤ w.stop <;>
      simp [hts, hw, hwin, trigBonus, expectedLatUpdate]

/-- Witness for C2 at a concrete blocking action sample (no trigger start,
so `trigBonus = 0`; `ai = 1400` recorded). -/
theorem processSample_full_invocation_witness :
    (processSample c2Window emptyPState c2BlockSample (some c2Act)).tp.invocations
        = emptyPState.tp.invocations + 1
    ∧ (processSample c2Window emptyPState c2BlockSample (some c2Act)).tp.activations
        = emptyPState.tp.activations + 1 + trigBonus c2Window c2BlockSample
    ∧ (processSample c2Window emptyPState c2BlockSample (some c2Act)).lat
        = expectedLatUpdate c2BlockSample c2Act emptyPState.lat := by
  have h := processSample_full_invocation c2Window emptyPState c2BlockSample c2Act
    1100 rfl (by decide) (by decide) rfl rfl (by decide) (by decide) (by decide) (by decide)
  exact ⟨h.2.1, h.2.2.2.1, h.2.2.2.2.2⟩

/-- C2 counterexample: for the rule-derived sample `c2Sample`, all
hypotheses of the claim hold (in-window `bi = 1100`, no errors, resolved
activation with start/end inside `[1000, 2000]`), but `activations` is
incremented by two — once provisionally for the in-window trigger start and
once for the full invocation — not by one as the claim states (`requests`
likewise). -/
theorem processSample_trigger_leg_double_count :
    c2Sample.bi = some 1100
    ∧ c2Sample.taidError = none
    ∧ c2Sample.aaidError = none
    ∧ c2Window.start ≤ 1100 ∧ (1100 : ℤ) ≤ c2Window.stop
    ∧ c2Window.start ≤ c2Act.start ∧ c2Act.start ≤ c2Window.stop
    ∧ c2Window.start ≤ c2Act.end_ ∧ c2Act.end_ ≤ c2Window.stop
    ∧ (processSample c2Window emptyPState c2Sample (some c2Act)).tp.activations = 2
    ∧ ¬ ((processSample c2Window emptyPState c2Sample (some c2Act)).tp.activations
          = emptyPState.tp.activations + 1) := by
  decide

/-- Every sample built by `invokeActions` in non-blocking mode is an
action sample with no `afterInvocation`. -/
theorem mkActionSample_action (o : InvOutcome) :
    isActionSample (mkActionSample false o) ∧ (mkActionSample false o).ai = none := by
  cases o <;> simp [mkActionSample, isActionSample]

/-- A burst of width one produces exactly one sample. -/
theorem invokeActionsList_one (db : Bool) (orc : ℕ → InvOutcome) (base : ℕ) :
    invokeActionsList db orc 1 base = [mkActionSample db (orc base)] := by
  simp [invokeActionsList, List.range_succ]

/-- The measured phase: from a post-warmup state with `k` remaining
iterations, the loop performs `k` more sampling iterations and aborts. -/
theorem loopRun_measured (orc : ℕ → InvOutcome) :
    ∀ (k : ℕ) (st : LoopState), st.abort = false → st.warmupCounter < 0 →
      st.remainingIterations = (k : ℤ) →
      (loopRun cfgC8 orc (k + 2) st).samples.length = st.samples.length + k
      ∧ (∀ s ∈ (loopRun cfgC8 orc (k + 2) st).samples,
          s ∈ st.samples ∨ (isActionSample s ∧ s.ai = none))
      ∧ (loopRun cfgC8 orc (k + 2) st).abort = true := by
  intro k
  induction k with
  | zero =>
    intro st ha hw hr
    have h1 : ¬ st.warmupCounter = 0 := by omega
    have h2 : ¬ (0 ≤ st.warmupCounter) := by omega
    have hr0 : st.remainingIterations = 0 := by exact_mod_cast hr
    have hiter : loopIter cfgC8 orc st = { st with abort := true } := by
      unfold loopIter
      simp [h1, h2, hr0]
    simp [loopRun, ha, hiter]
    exact fun s hs => Or.inl hs
  | succ k ih =>
    intro st ha hw hr
    have h1 : ¬ st.warmupCounter = 0 := by omega
    have h2 : ¬ (0 ≤ st.warmupCounter) := by omega
    have h3 : ¬ (st.remainingIterations = 0) := by rw [hr]; omega
    have h4 : 0 < st.remainingIterations := by rw [hr]; omega
    have hiter : loopIter cfgC8 orc st =
        { st with remainingIterations := st.remainingIterations - 1,
                  samples := st.samples ++ [mkActionSample false (orc st.samples.length)] } := by
      unfold loopIter
      simp [h1, h2, h3, h4, invokeActionsList_one, cfgC8]
    have hrun : loopRun cfgC8 orc (k + 1 + 2) st
        = loopRun cfgC8 orc (k + 2) (loopIter cfgC8 orc st) := by
      show loopRun cfgC8 orc (k + 2 + 1) st = _
      simp [loopRun, ha]
    rw [hrun, hiter]
    obtain ⟨hl, hm, hab⟩ := ih
      { st with remainingIterations := st.remainingIterations - 1,
                samples := st.samples ++ [mkActionSample false (orc st.samples.length)] }
      (by simp [ha]) (by simp [hw]) (by simp [hr])
    refine ⟨?_, ?_, hab⟩
    · rw [hl]
      simp [List.length_append]
      omega
    · intro s hs
      rcases hm s hs with h | h
      · rcases List.mem_append.1 h with h' | h'
        · exact Or.inl h'
        · right
          have hse : s = mkActionSample false (orc st.samples.length) := by simpa using h'
          rw [hse]
          exact mkActionSample_action _
      · exact Or.inr h

/-- The whole loop from an initial state with `wu` warmup iterations and
an iteration cap of 10: `wu + 10` sampling iterations, then abort. -/
theorem loopRun_warmup (orc : ℕ → InvOutcome) :
    ∀ (wu : ℕ) (st : LoopState), st.abort = false → st.warmupCounter = (wu : ℤ) →
      st.remainingInits = 1 → st.remainingIterations = -1 →
      (loopRun cfgC8 orc (wu + 12) st).samples.length = st.samples.length + (wu + 10)
      ∧ (∀ s ∈ (loopRun cfgC8 orc (wu + 12) st).samples,
          s ∈ st.samples ∨ (isActionSample s ∧ s.ai = none))
      ∧ (loopRun cfgC8 orc (wu + 12) st).abort = true := by
  intro wu
  induction wu with
  | zero =>
    intro st ha hw hi hr
    have hiter : loopIter cfgC8 orc st =
        { st with warmupCounter := -1, remainingInits := 0, remainingIterations := 9,
                  samples := st.samples ++ [mkActionSample false (orc st.samples.length)] } := by
      unfold loopIter checkInit
      norm_num [hw, hi, invokeActionsList_one, cfgC8]
    have hrun : loopRun cfgC8 orc 12 st = loopRun cfgC8 orc 11 (loopIter cfgC8 orc st) := by
      simp [loopRun, ha]
    rw [hrun, hiter]
    obtain ⟨hl, hm, hab⟩ := loopRun_measured orc 9
      { st with warmupCounter := -1, remainingInits := 0, remainingIterations := 9,
                samples := st.samples ++ [mkActionSample false (orc st.samples.length)] }
      (by simp [ha]) (by simp) (by simp)
    refine ⟨?_, ?_, hab⟩
    · rw [hl]
      simp [List.length_append]
    · intro s hs
      rcases hm s hs with h | h
      · rcases List.mem_append.1 h with h' | h'
        · exact Or.inl h'
        · right
          have hse : s = mkActionSample false (orc st.samples.length) := by simpa using h'
          rw [hse]
          exact mkActionSample_action _
      · exact Or.inr h
  | succ wu ih =>
    intro st ha hw hi hr
    have h1 : ¬ st.warmupCounter = 0 := by rw [hw]; omega
    have h2 : 0 ≤ st.warmupCounter := by rw [hw]; omega
    have hiter : loopIter cfgC8 orc st =
        { st with warmupCounter := st.warmupCounter - 1,
                  samples := st.samples ++ [mkActionSample false (orc st.samples.length)] } := by
      unfold loopIter
      norm_num [h1, h2, hr, invokeActionsList_one, cfgC8]
    have hrun : loopRun cfgC8 orc (wu + 1 + 12) st
        = loopRun cfgC8 orc (wu + 12) (loopIter cfgC8 orc st) := by
      show loopRun cfgC8 orc (wu + 12 + 1) st = _
      simp [loopRun, ha]
    rw [hrun, hiter]
    obtain ⟨hl, hm, hab⟩ := ih
      { st with warmupCounter := st.warmupCounter - 1,
                samples := st.samples ++ [mkActionSample false (orc st.samples.length)] }
      (by simp [ha]) (by simp [hw]) (by simp [hi]) (by simp [hr])
    refine ⟨?_, ?_, hab⟩
    · rw [hl]
      simp [List.length_append]
      omega
    · intro s hs
      rcases hm s hs with h | h
      · rcases List.mem_append.1 h with h' | h'
        · exact Or.inl h'
        · right
          have hse : s = mkActionSample false (orc st.samples.length) := by simpa using h'
          rw [hse]
          exact mkActionSample_action _
      · exact Or.inr h

/-- C8 (amended): configured with `iterations=10, workers=1, ratio=1,
activity=action, blocking=none`, the loop buffers exactly `warmup + 10`
samples (the warmup iterations also push their samples into `sampleData`;
post-processing later discards them through the time window).  Every
buffered sample is an action sample and none has `afterInvocation` set,
for every platform-response oracle. -/
theorem mainLoop_sample_collection (orc : ℕ → InvOutcome) (warmup : ℕ) :
    (loopRun cfgC8 orc (warmup + 12) (initLoopState warmup)).samples.length = warmup + 10
    ∧ ∀ s ∈ (loopRun cfgC8 orc (warmup + 12) (initLoopState warmup)).samples,
        isActionSample s ∧ s.ai = none := by
  obtain ⟨hl, hm, _⟩ := loopRun_warmup orc warmup (initLoopState warmup) rfl rfl rfl rfl
  refine ⟨by simpa [initLoopState] using hl, fun s hs => ?_⟩
  rcases hm s hs with h | h
  · simp [initLoopState] at h
  · exact h

/-- C8 counterexample: with the source's default `warmup = 5`, the claim's
configuration buffers 15 samples, not 10. -/
theorem mainLoop_default_warmup_count :
    (loopRun cfgC8 c8Oracle 17 (initLoopState 5)).samples.length = 15
    ∧ ¬ ((loopRun cfgC8 c8Oracle 17 (initLoopState 5)).samples.length = 10) := by
  refine ⟨rfl, by decide⟩

/-- A sum of squares is nonnegative. -/
theorem sumSq_nonneg (l : List ℤ) : 0 ≤ sumSq l := by
  apply List.sum_nonneg
  intro x hx
  obtain ⟨v, _, rfl⟩ := List.mem_map.1 hx
  exact mul_self_nonneg v

/-- Sum of squares distributes over append. -/
theorem sumSq_append (l1 l2 : List ℤ) : sumSq (l1 ++ l2) = sumSq l1 + sumSq l2 := by
  simp [sumSq]

/-- Cauchy-Schwarz for a value list: the square of the sum is at most the
length times the sum of squares. -/
theorem sq_sum_le_length_mul_sumSq (l : List ℤ) :
    l.sum ^ 2 ≤ (l.length : ℤ) * sumSq l := by
  induction l with
  | nil => simp [sumSq]
  | cons a t ih =>
    have hQ := sumSq_nonneg t
    by_cases ht : t = []
    · subst ht
      simp [sumSq]
      nlinarith [sq_nonneg a]
    · have hk1 : (1 : ℤ) ≤ (t.length : ℤ) := by
        have := List.length_pos.2 ht
        exact_mod_cast this
      have hkpos : (0 : ℤ) < (t.length : ℤ) := by linarith
      set S := t.sum with hS
      set Q := sumSq t with hQdef
      set k := (t.length : ℤ) with hk
      have hid : k * ((k + 1) * (a * a + Q) - (a + S) ^ 2)
          = (k * a - S) ^ 2 + (1 + k) * (k * Q - S ^ 2) := by ring
      have hrhs : (0 : ℤ) ≤ (k * a - S) ^ 2 + (1 + k) * (k * Q - S ^ 2) := by
        have h1 : (0 : ℤ) ≤ (k * a - S) ^ 2 := sq_nonneg _
        have h2 : (0 : ℤ) ≤ k * Q - S ^ 2 := by nlinarith [ih]
        nlinarith
      have hmul : (0 : ℤ) ≤ k * ((k + 1) * (a * a + Q) - (a + S) ^ 2) := by
        rw [hid]; exact hrhs
      have hfac : (0 : ℤ) ≤ (k + 1) * (a * a + Q) - (a + S) ^ 2 :=
        (mul_nonneg_iff_of_pos_left hkpos).1 hmul
      have hlen : ((a :: t).length : ℤ) = k + 1 := by simp [hk]
      have hsum : (a :: t).sum = a + S := by simp [hS]
      have hsq : sumSq (a :: t) = a * a + Q := by simp [sumSq, hQdef]
      rw [hlen, hsum, hsq]
      linarith

/-- A lower bound of every element bounds the sum from below. -/
theorem lb_mul_length_le_sum (l : List ℤ) (m : ℤ) (h : ∀ v ∈ l, m ≤ v) :
    m * (l.length : ℤ) ≤ l.sum := by
  induction l with
  | nil => simp
  | cons a t ih =>
    have ha := h a (by simp)
    have ht := ih (fun v hv => h v (by simp [hv]))
    simp only [List.length_cons, List.sum_cons]
    push_cast
    linarith

/-- An upper bound of every element bounds the sum from above. -/
theorem sum_le_ub_mul_length (l : List ℤ) (M : ℤ) (h : ∀ v ∈ l, v ≤ M) :
    l.sum ≤ M * (l.length : ℤ) := by
  induction l with
  | nil => simp
  | cons a t ih =>
    have ha := h a (by simp)
    have ht := ih (fun v hv => h v (by simp [hv]))
    simp only [List.length_cons, List.sum_cons]
    push_cast
    linarith

/-- Folding one positive value into an accumulator that represents `vs`
yields an accumulator that represents `vs ++ [x]`. -/
theorem updateLat_repr (acc : LatAcc) (vs : List ℤ) (x : ℤ)
    (h : AccRepr acc vs) (hpos : ∀ v ∈ vs, 0 < v) (hx : 0 < x) :
    AccRepr (updateLatSample acc (some x)) (vs ++ [x]) := by
  obtain ⟨hsum, hsq, hemp, hne⟩ := h
  have hx0 : ¬ (x = 0) := by omega
  by_cases hvs : vs = []
  · subst hvs
    obtain ⟨hmn, hmx⟩ := hemp rfl
    simp only [if_pos] at hsum hsq
    have hres : updateLatSample acc (some x)
        = { sum := some x, sumSqr := some (x * x), min := some x, max := some x } := by
      simp [updateLatSample, hx0, hsum, hsq, hmn, hmx]
    rw [hres]
    refine ⟨by simp, by simp [sumSq], by simp, fun _ => ?_⟩
    exact ⟨⟨x, rfl, by simp, by simp⟩, ⟨x, rfl, by simp, by simp⟩⟩
  · rw [if_neg hvs] at hsum hsq
    obtain ⟨⟨m, hm, hmmem, hmlb⟩, ⟨M, hM, hMmem, hMub⟩⟩ := hne hvs
    have hm0 : ¬ (m = 0) := by have := hpos m hmmem; omega
    have hM0 : ¬ (M = 0) := by have := hpos M hMmem; omega
    have happ : ¬ (vs ++ [x] = []) := by simp
    refine ⟨?_, ?_, by simp, fun _ => ⟨?_, ?_⟩⟩
    · rw [if_neg happ]
      simp [updateLatSample, hx0, hsum, List.sum_append]
    · rw [if_neg happ]
      simp [updateLatSample, hx0, hsq, sumSq_append, sumSq]
    · -- min
      have hminproj : (updateLatSample acc (some x)).min
          = if m = 0 ∨ m > x then some x else some m := by
        simp [updateLatSample, hx0, hm]
      by_cases hlt : m > x
      · refine ⟨x, ?_, by simp, ?_⟩
        · rw [hminproj, if_pos (Or.inr hlt)]
        · intro v hv
          rcases List.mem_append.1 hv with h' | h'
          · have := hmlb v h'
            omega
          · simp at h'
            omega
      · refine ⟨m, ?_, by simp [hmmem], ?_⟩
        · rw [hminproj, if_neg (by push_neg; exact ⟨hm0, by omega⟩)]
        · intro v hv
          rcases List.mem_append.1 hv with h' | h'
          · exact hmlb v h'
          · simp at h'
            omega
    · -- max
      have hmaxproj : (updateLatSample acc (some x)).max
          = if M = 0 ∨ M < x then some x else some M := by
        simp [updateLatSample, hx0, hM]
      by_cases hlt : M < x
      · refine ⟨x, ?_, by simp, ?_⟩
        · rw [hmaxproj, if_pos (Or.inr hlt)]
        · intro v hv
          rcases List.mem_append.1 hv with h' | h'
          · have := hMub v h'
            omega
          · simp at h'
            omega
      · refine ⟨M, ?_, by simp [hMmem], ?_⟩
        · rw [hmaxproj, if_neg (by push_neg; exact ⟨hM0, by omega⟩)]
        · intro v hv
          rcases List.mem_append.1 hv with h' | h'
          · exact hMub v h'
          · simp at h'
            omega


/-- Folding a list of positive values extends the representation. -/
theorem foldl_updateLat_repr :
    ∀ (l : List ℤ) (acc : LatAcc) (vs : List ℤ), AccRepr acc vs →
      (∀ v ∈ vs, 0 < v) → (∀ v ∈ l, 0 < v) →
      AccRepr (l.foldl (fun a v => updateLatSample a (some v)) acc) (vs ++ l) := by
  intro l
  induction l with
  | nil =>
    intro acc vs h _ _
    simpa using h
  | cons a t ih =>
    intro acc vs h hvs hl
    have ha : 0 < a := hl a (by simp)
    have hstep := updateLat_repr acc vs a h hvs ha
    have hcons : vs ++ a :: t = (vs ++ [a]) ++ t := by simp
    rw [List.foldl_cons, hcons]
    apply ih _ _ hstep
    · intro v hv
      rcases List.mem_append.1 hv with h' | h'
      · exact hvs v h'
      · simp at h'
        omega
    · intro v hv
      exact hl v (by simp [hv])

/-- The accumulator built from a list of positive values represents it. -/
theorem accFromList_repr (l : List ℤ) (hpos : ∀ v ∈ l, 0 < v) :
    AccRepr (accFromList l) l := by
  have h0 : AccRepr emptyLatAcc [] := by
    refine ⟨by simp [emptyLatAcc], by simp [emptyLatAcc], fun _ => by simp [emptyLatAcc], fun h => absurd rfl h⟩
  simpa using foldl_updateLat_repr l emptyLatAcc [] h0 (by simp) hpos

/-- One merge step of `computeLatStats` extends the combined value list by
the process's contributions and the invocation total by its invocations. -/
theorem mergeStep_good (ms : MergeState) (C : List ℤ) (I : ℕ) (p : List ℤ × ℕ)
    (h : GoodMS ms C I) (hC : ∀ v ∈ C, 0 < v) (hp : ∀ v ∈ p.1, 0 < v) :
    GoodMS (mergeStep ms (mkWorkerLat p)) (C ++ p.1) (I + p.2) := by
  obtain ⟨hsum, hsq, hinv, hhs, hemp, hne⟩ := h
  have hrepr := accFromList_repr p.1 hp
  obtain ⟨rsum, rsq, remp, rne⟩ := hrepr
  by_cases hp1 : p.1 = []
  · -- empty contribution: the truthiness test fails and only totalInv moves
    rw [if_pos hp1] at rsum
    have hstep : mergeStep ms (mkWorkerLat p)
        = { ms with totalInv := ms.totalInv + p.2 } := by
      simp [mergeStep, mkWorkerLat, truthyOpt, rsum]
    rw [hstep, hp1]
    exact ⟨by simpa using hsum, by simpa using hsq, by simp [hinv], by simpa using hhs,
      fun hce => by simpa using hemp (by simpa using hce),
      fun hce => by simpa using hne (by simpa using hce)⟩
  · rw [if_neg hp1] at rsum rsq
    obtain ⟨⟨mp, hmp, hmpmem, hmplb⟩, ⟨Mp, hMp, hMpmem, hMpub⟩⟩ := rne hp1
    have hpsumpos : 0 < p.1.sum := List.sum_pos p.1 hp hp1
    have htruthy : truthyOpt (accFromList p.1).sum = true := by
      rw [rsum]
      simp [truthyOpt]
      omega
    have happ : ¬ (C ++ p.1 = []) := by simp [hp1]
    have hstep : mergeStep ms (mkWorkerLat p)
        = { hasSamples := true, totalSum := ms.totalSum + p.1.sum,
            totalSumSqr := ms.totalSumSqr + sumSq p.1,
            mn := mergeMinJS ms.mn (accFromList p.1).min,
            mx := mergeMaxJS ms.mx (accFromList p.1).max,
            totalInv := ms.totalInv + p.2 } := by
      simp only [mergeStep, mkWorkerLat]
      rw [htruthy]
      simp [rsum, rsq]
    rw [hstep]
    refine ⟨?_, ?_, ?_, ?_, fun hce => absurd hce happ, fun _ => ⟨?_, ?_⟩⟩
    · simp [hsum, List.sum_append]
    · simp [hsq, sumSq_append]
    · simp [hinv]
    · simp [happ]
    · -- min of the merged state
      show ∃ m, mergeMinJS ms.mn (accFromList p.1).min = some m ∧ m ∈ C ++ p.1 ∧ ∀ v ∈ C ++ p.1, m ≤ v
      have hpmin : (accFromList p.1).min = some mp := hmp
      by_cases hce : C = []
      · -- no previous contribution: the candidate is taken verbatim
        obtain ⟨hmn0, _⟩ := hemp hce
        rw [hpmin, hmn0]
        refine ⟨mp, by simp [mergeMinJS], by simp [hce, hmpmem], ?_⟩
        intro v hv
        rw [hce] at hv
        simp at hv
        exact hmplb v hv
      · obtain ⟨⟨m, hmn, hmmem, hmlb⟩, _⟩ := hne hce
        have hm0 : ¬ (m = 0) := by have := hC m hmmem; omega
        have hmerge : mergeMinJS ms.mn (accFromList p.1).min
            = if m > mp then some mp else some m := by
          rw [hpmin, hmn]
          simp [mergeMinJS, hm0]
        rw [hmerge]
        by_cases hlt : m > mp
        · refine ⟨mp, by rw [if_pos hlt], by simp [hmpmem], ?_⟩
          intro v hv
          rcases List.mem_append.1 hv with h' | h'
          · have := hmlb v h'
            omega
          · exact hmplb v h'
        · refine ⟨m, by rw [if_neg hlt], by simp [hmmem], ?_⟩
          intro v hv
          rcases List.mem_append.1 hv with h' | h'
          · exact hmlb v h'
          · have := hmplb v h'
            omega
    · -- max of the merged state
      show ∃ M, mergeMaxJS ms.mx (accFromList p.1).max = some M ∧ M ∈ C ++ p.1 ∧ ∀ v ∈ C ++ p.1, v ≤ M
      have hpmax : (accFromList p.1).max = some Mp := hMp
      by_cases hce : C = []
      · obtain ⟨_, hmx0⟩ := hemp hce
        rw [hpmax, hmx0]
        refine ⟨Mp, by simp [mergeMaxJS], by simp [hce, hMpmem], ?_⟩
        intro v hv
        rw [hce] at hv
        simp at hv
        exact hMpub v hv
      · obtain ⟨_, ⟨M, hmx, hMmem, hMub⟩⟩ := hne hce
        have hM0 : ¬ (M = 0) := by have := hC M hMmem; omega
        have hmerge : mergeMaxJS ms.mx (accFromList p.1).max
            = if M < Mp then some Mp else some M := by
          rw [hpmax, hmx]
          simp [mergeMaxJS, hM0]
        rw [hmerge]
        by_cases hlt : M < Mp
        · refine ⟨Mp, by rw [if_pos hlt], by simp [hMpmem], ?_⟩
          intro v hv
          rcases List.mem_append.1 hv with h' | h'
          · have := hMub v h'
            omega
          · exact hMpub v h'
        · refine ⟨M, by rw [if_neg hlt], by simp [hMmem], ?_⟩
          intro v hv
          rcases List.mem_append.1 hv with h' | h'
          · exact hMub v h'
          · have := hMpub v h'
            omega


/-- The full merge fold of `computeLatStats` over per-process snapshots. -/
theorem mergeFold_good :
    ∀ (ps : List (List ℤ × ℕ)) (ms : MergeState) (C : List ℤ) (I : ℕ),
      GoodMS ms C I → (∀ v ∈ C, 0 < v) → (∀ p ∈ ps, ∀ v ∈ p.1, 0 < v) →
      GoodMS ((ps.map mkWorkerLat).foldl mergeStep ms)
        (C ++ (ps.map Prod.fst).flatten) (I + (ps.map Prod.snd).sum) := by
  intro ps
  induction ps with
  | nil =>
    intro ms C I h _ _
    simpa using h
  | cons p t ih =>
    intro ms C I h hC hp
    have hstep := mergeStep_good ms C I p h hC (hp p (by simp))
    have happos : ∀ v ∈ C ++ p.1, 0 < v := by
      intro v hv
      rcases List.mem_append.1 hv with h' | h'
      · exact hC v h'
      · exact hp p (by simp) v h'
    have hrec := ih (mergeStep ms (mkWorkerLat p)) (C ++ p.1) (I + p.2) hstep happos
      (fun q hq => hp q (by simp [hq]))
    simp only [List.map_cons, List.foldl_cons, List.flatten_cons, List.sum_cons]
    rw [← List.append_assoc, ← Nat.add_assoc]
    exact hrec

/-- The initial merge state represents no contributions. -/
theorem initMergeState_good : GoodMS initMergeState [] 0 := by
  refine ⟨rfl, by simp [initMergeState, sumSq], rfl, by simp [initMergeState],
    fun _ => ⟨rfl, rfl⟩, fun h => absurd rfl h⟩

/-- C4 (amended): in uniform mode, over per-process snapshots whose
accumulators are folds of positive metric values with at most one
contribution per invocation, the radicand of the aggregated standard
deviation is nonnegative (so `std = sqrt(sumSqr/n - avg^2)` is a real
number `≥ 0`, never NaN); and when every invocation contributed exactly one
value to the metric, the aggregate satisfies `min ≤ avg ≤ max`.  (The
unamended claim fails because `avg` divides by the summed `invocations`
count, which also counts invocations whose value for this metric was zero
or undefined and hence never folded; see the counterexample.) -/
theorem computeLatStats_bounds
    (w0 : List ℤ × ℕ) (ps : List (List ℤ × ℕ))
    (hpos : ∀ p ∈ w0 :: ps, ∀ v ∈ p.1, 0 < v)
    (hinv : ∀ p ∈ w0 :: ps, p.1.length ≤ p.2)
    (hne : ((w0 :: ps).map Prod.fst).flatten ≠ []) :
    (∃ r : ℚ, (computeLatStats false (mkWorkerLat w0) (ps.map mkWorkerLat)).stdRad = some r
      ∧ 0 ≤ r)
    ∧ (((w0 :: ps).map Prod.fst).flatten.length = ((w0 :: ps).map Prod.snd).sum →
      ∃ m a M, (computeLatStats false (mkWorkerLat w0) (ps.map mkWorkerLat)).min = some m
        ∧ (computeLatStats false (mkWorkerLat w0) (ps.map mkWorkerLat)).avg = some a
        ∧ (computeLatStats false (mkWorkerLat w0) (ps.map mkWorkerLat)).max = some M
        ∧ (m : ℚ) ≤ a ∧ a ≤ (M : ℚ)) := by
  have hfold := mergeFold_good (w0 :: ps) initMergeState [] 0 initMergeState_good
    (by simp) hpos
  simp only [List.nil_append, Nat.zero_add] at hfold
  obtain ⟨hsum, hsq, hinv2, hhs, _, hnex⟩ := hfold
  obtain ⟨⟨m, hmn, hmmem, hmlb⟩, ⟨M, hmx, hMmem, hMub⟩⟩ := hnex hne
  set final := (((w0 :: ps).map mkWorkerLat).foldl mergeStep initMergeState) with hfinal
  set C := ((w0 :: ps).map Prod.fst).flatten with hCdef
  set n := ((w0 :: ps).map Prod.snd).sum with hndef
  have hhast : final.hasSamples = true := hhs.2 hne
  have hstats : computeLatStats false (mkWorkerLat w0) (ps.map mkWorkerLat)
      = { avg := some ((final.totalSum : ℚ) / (final.totalInv : ℚ)),
          stdRad := some ((final.totalSumSqr : ℚ) / (final.totalInv : ℚ)
            - ((final.totalSum : ℚ) / (final.totalInv : ℚ)) ^ 2),
          min := final.mn, max := final.mx } := by
    simp only [computeLatStats]
    rw [← List.map_cons]
    rw [← hfinal, hhast]
    simp
  -- counting: the combined list is no longer than the total invocation count
  have hklen : C.length = ((w0 :: ps).map (fun p => p.1.length)).sum := by
    rw [hCdef, List.length_flatten, List.map_map]
    rfl
  have hkn : C.length ≤ n := by
    rw [hklen, hndef]
    exact List.sum_le_sum hinv
  have hk1 : 0 < C.length := List.length_pos.2 hne
  have hn0 : 0 < n := lt_of_lt_of_le hk1 hkn
  have hnq : (0 : ℚ) < (n : ℚ) := by exact_mod_cast hn0
  have hQ0 : (0 : ℤ) ≤ sumSq C := sumSq_nonneg C
  have hCS : C.sum ^ 2 ≤ (C.length : ℤ) * sumSq C := sq_sum_le_length_mul_sumSq C
  constructor
  · -- the standard-deviation radicand is nonnegative
    refine ⟨(final.totalSumSqr : ℚ) / (final.totalInv : ℚ)
        - ((final.totalSum : ℚ) / (final.totalInv : ℚ)) ^ 2, by rw [hstats], ?_⟩
    have hZ : (C.sum : ℤ) ^ 2 * (n : ℤ) ≤ sumSq C * (n : ℤ) ^ 2 := by
      have h4 : ((C.length : ℤ)) ≤ (n : ℤ) := by exact_mod_cast hkn
      have h5 : (0 : ℤ) ≤ (n : ℤ) := by positivity
      nlinarith [mul_le_mul_of_nonneg_right hCS h5,
        mul_nonneg (mul_nonneg (sub_nonneg.2 h4) hQ0) h5]
    have h2 : ((final.totalSum : ℚ) / (n : ℚ)) ^ 2 ≤ (final.totalSumSqr : ℚ) / (n : ℚ) := by
      rw [div_pow, div_le_div_iff₀ (by positivity) hnq]
      rw [hsum, hsq]
      exact_mod_cast hZ
    rw [hinv2]
    linarith
  · intro hlen
    have hlb : (m : ℤ) * (C.length : ℤ) ≤ C.sum := lb_mul_length_le_sum C m hmlb
    have hub : C.sum ≤ (M : ℤ) * (C.length : ℤ) := sum_le_ub_mul_length C M hMub
    have hkn2 : ((C.length : ℕ) : ℤ) = (n : ℤ) := by exact_mod_cast hlen
    refine ⟨m, (final.totalSum : ℚ) / (final.totalInv : ℚ), M,
      (by rw [hstats]; exact hmn), (by rw [hstats]),
      (by rw [hstats]; exact hmx), ?_, ?_⟩
    · rw [hsum, hinv2, le_div_iff₀ hnq]
      have hmn2 : (m : ℤ) * (n : ℤ) ≤ C.sum := by rw [← hkn2]; exact hlb
      exact_mod_cast hmn2
    · rw [hsum, hinv2, div_le_iff₀ hnq]
      have hmx2 : C.sum ≤ (M : ℤ) * (n : ℤ) := by rw [← hkn2]; exact hub
      exact_mod_cast hmx2

/-- Witness for C4: one process contributing values 3 and 5 over two
invocations. -/
theorem computeLatStats_bounds_witness :
    (∃ r : ℚ, (computeLatStats false (mkWorkerLat ([3, 5], 2)) []).stdRad = some r ∧ 0 ≤ r)
    ∧ (∃ m a M, (computeLatStats false (mkWorkerLat ([3, 5], 2)) []).min = some m
        ∧ (computeLatStats false (mkWorkerLat ([3, 5], 2)) []).avg = some a
        ∧ (computeLatStats false (mkWorkerLat ([3, 5], 2)) []).max = some M
        ∧ (m : ℚ) ≤ a ∧ a ≤ (M : ℚ)) := by
  have h := computeLatStats_bounds ([3, 5], 2) [] (by decide) (by decide) (by decide)
  exact ⟨h.1, h.2 (by decide)⟩

/-- C4 counterexample: the `oer` metric receives one contribution (70) from
two admitted invocations (the second invocation's `oer` is 0 and skipped by
the accumulator), so the aggregate has `min = 70` but `avg = 70/2 = 35`:
`min ≤ avg` fails even though the metric has a contributing sample. -/
theorem computeLatStats_min_above_avg :
    oerState.tp.invocations = 2
    ∧ oerState.lat.oer.sum = some 70
    ∧ (computeLatStats false ⟨oerState.lat.oer, oerState.tp.invocations⟩ []).min = some 70
    ∧ (computeLatStats false ⟨oerState.lat.oer, oerState.tp.invocations⟩ []).avg = some 35
    ∧ ¬ ((70 : ℚ) ≤ 35) := by
  refine ⟨by decide, by decide, by decide, ?_, by norm_num⟩
  norm_num [computeLatStats, mergeStep, initMergeState, mergeMinJS, mergeMaxJS,
    truthyOpt, oerState, processSample, updateLatSample, biOutside, tsNorm, aiNorm,
    oerWindow, oerSample70, oerSample0, oerAct70, oerAct0, emptyPState,
    emptyLatCounters, emptyLatAcc]

end Owperf
